import Mathlib

/-!
Verification development for the recursive granule-discovery module
(`task/main.py`).  The Python code is shallowly embedded: Python dicts
become association lists over `String` keys, regular-expression search
(`re.search`) becomes an abstract matcher parameter
`reS : String → String → Bool` (pattern, subject), the remote HTTP/SFTP
listing trees become inductive trees, `dateutil.parser.parse` becomes an
abstract possibly-failing parser `pT : String → Option Int` (timestamps are
modelled as integer epochs), and code that can raise returns
`Except String`.
-/

namespace DiscoverGranules

/-- Python dict with string keys, as an association list in insertion order. -/
abbrev AList (α : Type) := List (String × α)

/-- Python dict assignment `d[k] = v`: replace the value slot of an existing
key in place, otherwise append a new entry at the end. -/
def dictSet {α : Type} : AList α → String → α → AList α
  | [], k, v => [(k, v)]
  | p :: rest, k, v => if p.1 == k then (k, v) :: rest else p :: dictSet rest k v

/-- Python `d1.update(d2)`: assign every entry of `d2` into `d1`, in order. -/
def dictUpdate {α : Type} (d other : AList α) : AList α :=
  other.foldl (fun a p => dictSet a p.1 p.2) d

/-- The keys of a dict, in insertion order. -/
def dictKeys {α : Type} (d : AList α) : List String := d.map Prod.fst

/-- Python `d.get(k)`. -/
def dictLookup {α : Type} : AList α → String → Option α
  | [], _ => none
  | p :: rest, k => if p.1 == k then some p.2 else dictLookup rest k

/-- Python `str(x)` for an optional string (`str(None)` is the text `"None"`);
this is what an f-string interpolation produces. -/
def pyFmt : Option String → String
  | none => "None"
  | some s => s

/-- Python `d.get(k, default)` for an optional configuration string. -/
def pyGet (o : Option String) (dflt : String) : String :=
  match o with
  | none => dflt
  | some s => s

/-- Python `s.lower()` (ASCII). -/
def pyLower (s : String) : String := ⟨s.data.map Char.toLower⟩

/-- Drop every trailing occurrence of `c` (list form of Python `rstrip`). -/
def rstripChars (c : Char) : List Char → List Char
  | [] => []
  | a :: rest =>
    match rstripChars c rest with
    | [] => if a == c then [] else [a]
    | r => a :: r

/-- Python `s.rstrip(c)`. -/
def pyRstrip (s : String) (c : Char) : String := ⟨rstripChars c s.data⟩

/-- Python `s.strip(c)`: drop every leading and trailing occurrence of `c`. -/
def pyStrip (s : String) (c : Char) : String :=
  ⟨rstripChars c (s.data.dropWhile (· == c))⟩

/-- The characters after the last `'/'` (Python `s.rsplit('/', 1)[-1]`). -/
def afterLastSlash (l : List Char) : List Char :=
  l.foldl (fun acc ch => if ch == '/' then [] else acc ++ [ch]) []

/-- The characters before the last `'/'` (Python `s.rsplit('/', 1)[0]` when a
slash is present; the whole-string/crash case of Python is out of scope and
yields `[]` here). -/
def beforeLastSlash (l : List Char) : List Char :=
  l.take (l.length - (afterLastSlash l).length - 1)

/-- The base name of a key: the part after the last path separator. -/
def base_name (key : String) : String := ⟨afterLastSlash key.data⟩

/-- The directory part of a key: the part before the last path separator. -/
def dir_name (key : String) : String := ⟨beforeLastSlash key.data⟩

/-- `x is None or re.search(x, s)`, for an optional regex `x` under the
abstract matcher `reS`. -/
def optMatch (reS : String → String → Bool) (r : Option String) (s : String) : Bool :=
  match r with
  | none => true
  | some p => reS p s

/-- Boolean prefix test on character lists (`a` leads `b` when `a` is an
initial segment of `b`). -/
def listLeads : List Char → List Char → Bool
  | [], _ => true
  | _ :: _, [] => false
  | a :: x, b :: y => a == b && listLeads x y

/-- One value of a discovered-granule dict: the `ETag`, `Last-Modified` and
`Size` slots written by the discovery functions.  `none` stands for a slot
that is absent (or Python `None`). -/
structure GranuleEntry where
  etag : Option String
  lastModified : Option String
  size : Option Int
deriving DecidableEq, Repr

/-- `populate_dict` (module-level helper): store key ↦ `{'ETag': etag,
'Last-Modified': str(last_mod), 'Size': size}`.  The caller passes
`last_mod` already rendered by `str`. -/
def populate_dict (target_dict : AList GranuleEntry) (key : String) (etag : Option String)
    (last_mod : String) (size : Option Int) : AList GranuleEntry :=
  dictSet target_dict key { etag := etag, lastModified := some last_mod, size := size }

/-- A `Last-Modified` header value: a string, or some non-string object
(the `isinstance(…, str)` check in the code distinguishes the two). -/
inductive HeaderVal where
  | str (s : String) : HeaderVal
  | nonStr : HeaderVal
deriving DecidableEq, Repr

/-- The relevant fields of a HEAD response: `ETag` and `Last-Modified`,
each possibly absent. -/
structure HeadResp where
  etag : Option String
  lastModified : Option HeaderVal
deriving DecidableEq, Repr

/-- The remote HTTP listing, unfolded from the starting URL: a page is a
list of anchors; each anchor carries its raw `href`, the HEAD response of
its resolved path, and the page served when the engine recurses into it. -/
inductive HttpTree where
  | nil : HttpTree
  | cons (href : String) (head : HeadResp) (sub : HttpTree) (rest : HttpTree) : HttpTree
deriving DecidableEq, Repr

/-- The anchors of a page, as a list. -/
def http_children : HttpTree → List (String × HeadResp × HttpTree)
  | .nil => []
  | .cons href h sub rest => (href, h, sub) :: http_children rest

/-- `url_segment = a_tag.get('href').rstrip('/').rsplit('/', 1)[-1]`. -/
def http_seg (href : String) : String :=
  ⟨afterLastSlash (rstripChars '/' href.data)⟩

/-- `path = f'{url_path.rstrip("/")}/{url_segment}'`. -/
def http_path (url_path href : String) : String :=
  pyRstrip url_path '/' ++ "/" ++ http_seg href

/-- The anchor loop of `discover_granules_http` (lines 256-284), granule
side: classify each anchor and populate `granule_dict`.  A `Last-Modified`
string that `parse` rejects raises, which aborts the whole call
(`Except.error`). -/
def http_level (pT : String → Option Int) (reS : String → String → Bool) (fre : Option String)
    (url_path : String) : HttpTree → AList GranuleEntry → Except String (AList GranuleEntry)
  | .nil, acc => .ok acc
  | .cons href h _sub rest, acc =>
    let seg := http_seg href
    let path := http_path url_path href
    if (h.etag.isSome || h.lastModified.isSome) && optMatch reS fre seg then
      match h.lastModified with
      | some (HeaderVal.str s) =>
        match pT s with
        | some t =>
          http_level pT reS fre url_path rest
            (dictSet acc path { etag := some (pyFmt h.etag), lastModified := some (toString t), size := none })
        | none => .error s
      | _ =>
        http_level pT reS fre url_path rest
          (dictSet acc path { etag := some (pyFmt h.etag), lastModified := none, size := none })
    else
      http_level pT reS fre url_path rest acc

/-- The anchor loop of `discover_granules_http`, directory side: the
`directory_list` built at a page (each queued URL is paired with the page
it denotes). -/
def http_dirs (reS : String → String → Bool) (dre : Option String) (url_path : String) :
    HttpTree → List (String × HttpTree)
  | .nil => []
  | .cons href h sub rest =>
    let path := http_path url_path href
    if (h.etag.isNone && h.lastModified.isNone) && optMatch reS dre path then
      (path ++ "/", sub) :: http_dirs reS dre url_path rest
    else
      http_dirs reS dre url_path rest

/-- The recursion loop of `discover_granules_http` (lines 287-292):
`for directory in directory_list: granule_dict.update(recurse(directory))`.
The recursive call to `discover_granules_http` is inlined (same body) so
that the recursion is structural; `n` is the already-decremented budget
`depth - 1` passed by the caller. -/
def http_recurse (pT : String → Option Int) (reS : String → String → Bool)
    (fre dre : Option String) : HttpTree → String → Nat → AList GranuleEntry →
    Except String (AList GranuleEntry)
  | .nil, _, _, acc => .ok acc
  | .cons href h sub rest, url_path, n, acc =>
    let path := http_path url_path href
    if (h.etag.isNone && h.lastModified.isNone) && optMatch reS dre path then
      match http_level pT reS fre (path ++ "/") sub [] with
      | .error e => .error e
      | .ok m =>
        let d := min (Int.ofNat n).natAbs 3
        let r := if d > 0 then http_recurse pT reS fre dre sub (path ++ "/") (d - 1) m else .ok m
        match r with
        | .error e => .error e
        | .ok rm => http_recurse pT reS fre dre rest url_path n (dictUpdate acc rm)
    else
      http_recurse pT reS fre dre rest url_path n acc

/-- `discover_granules_http(url_path, file_reg_ex, dir_reg_ex, depth)`:
list the page, then `depth = min(abs(depth), 3)` and recurse into the
queued directories when the clamped depth is positive. -/
def discover_granules_http (pT : String → Option Int) (reS : String → String → Bool)
    (fre dre : Option String) (page : HttpTree) (url_path : String) (depth : Int) :
    Except String (AList GranuleEntry) :=
  match http_level pT reS fre url_path page [] with
  | .error e => .error e
  | .ok granule_dict =>
    let d := min depth.natAbs 3
    if d > 0 then http_recurse pT reS fre dre page url_path (d - 1) granule_dict
    else .ok granule_dict

/-- Modelled from the spec: the recursion loop with an exact `Nat` budget
`n` — recursion proceeds while the budget is positive and the budget is
decremented by one per level, with no further clamping. -/
def http_recurse_at (pT : String → Option Int) (reS : String → String → Bool)
    (fre dre : Option String) : HttpTree → String → Nat → AList GranuleEntry →
    Except String (AList GranuleEntry)
  | .nil, _, _, acc => .ok acc
  | .cons href h sub rest, url_path, n, acc =>
    let path := http_path url_path href
    if (h.etag.isNone && h.lastModified.isNone) && optMatch reS dre path then
      match http_level pT reS fre (path ++ "/") sub [] with
      | .error e => .error e
      | .ok m =>
        let r := if n > 0 then http_recurse_at pT reS fre dre sub (path ++ "/") (n - 1) m else .ok m
        match r with
        | .error e => .error e
        | .ok rm => http_recurse_at pT reS fre dre rest url_path n (dictUpdate acc rm)
    else
      http_recurse_at pT reS fre dre rest url_path n acc

/-- Modelled from the spec: discovery whose effective recursion depth below
the starting location is exactly `n` — the immediate children are always
listed, and recursion happens exactly when `n > 0`. -/
def discover_http_at (pT : String → Option Int) (reS : String → String → Bool)
    (fre dre : Option String) (page : HttpTree) (url_path : String) (n : Nat) :
    Except String (AList GranuleEntry) :=
  match http_level pT reS fre url_path page [] with
  | .error e => .error e
  | .ok granule_dict =>
    if n > 0 then http_recurse_at pT reS fre dre page url_path (n - 1) granule_dict
    else .ok granule_dict

/-- The fields of an SFTP `stat` result the code reads: the leading
character of `str(file_stat)` (`'d'` for a directory), `st_mtime` and
`st_size`. -/
structure SftpStat where
  ftype : Char
  st_mtime : Int
  st_size : Int
deriving DecidableEq, Repr

/-- The remote SFTP listing, unfolded from the starting directory: each
entry carries its name, its stat result and the listing seen after
`chdir` into it. -/
inductive SftpTree where
  | nil : SftpTree
  | cons (name : String) (st : SftpStat) (sub : SftpTree) (rest : SftpTree) : SftpTree
deriving DecidableEq, Repr

/-- The entries of an SFTP listing, as a list. -/
def sftp_children : SftpTree → List (String × SftpStat × SftpTree)
  | .nil => []
  | .cons name st sub rest => (name, st, sub) :: sftp_children rest

/-- The listing loop of `discover_granules_sftp` (lines 389-399), granule
side: a directory entry (when `dir_reg_ex` is absent or matches the
CURRENT path) is skipped here; otherwise the entry is a granule when
`file_reg_ex` is absent or matches its name. -/
def sftp_level (reS : String → String → Bool) (fre dre : Option String) (path : String) :
    SftpTree → AList GranuleEntry → AList GranuleEntry
  | .nil, acc => acc
  | .cons name st _sub rest, acc =>
    if st.ftype == 'd' && optMatch reS dre path then
      sftp_level reS fre dre path rest acc
    else if optMatch reS fre name then
      sftp_level reS fre dre path rest
        (populate_dict acc (path ++ "/" ++ name) (some "N/A") (toString st.st_mtime) (some st.st_size))
    else
      sftp_level reS fre dre path rest acc

/-- The listing loop of `discover_granules_sftp`, directory side: the
`directory_list` built at a directory (each queued name is paired with
its listing). -/
def sftp_dirs (reS : String → String → Bool) (dre : Option String) (path : String) :
    SftpTree → List (String × SftpTree)
  | .nil => []
  | .cons name st sub rest =>
    if st.ftype == 'd' && optMatch reS dre path then
      (name, sub) :: sftp_dirs reS dre path rest
    else
      sftp_dirs reS dre path rest

/-- The recursion loop of `discover_granules_sftp` (lines 401-407): the
recursive call `discover_granules_sftp(path=directory, depth=depth-1)` is
inlined (same body) so the recursion is structural.  Note the recursion
rebases `path` to the bare directory name. -/
def sftp_recurse (reS : String → String → Bool) (fre dre : Option String) :
    SftpTree → String → Nat → AList GranuleEntry → AList GranuleEntry
  | .nil, _, _, acc => acc
  | .cons name st sub rest, path, n, acc =>
    if st.ftype == 'd' && optMatch reS dre path then
      let m := sftp_level reS fre dre name sub []
      let d := min (Int.ofNat n).natAbs 3
      let r := if d > 0 then sftp_recurse reS fre dre sub name (d - 1) m else m
      sftp_recurse reS fre dre rest path n (dictUpdate acc r)
    else
      sftp_recurse reS fre dre rest path n acc

/-- `discover_granules_sftp(sftp_client, path, file_reg_ex, dir_reg_ex, depth)`. -/
def discover_granules_sftp (reS : String → String → Bool) (fre dre : Option String)
    (page : SftpTree) (path : String) (depth : Int) : AList GranuleEntry :=
  let granule_dict := sftp_level reS fre dre path page []
  let d := min depth.natAbs 3
  if d > 0 then sftp_recurse reS fre dre page path (d - 1) granule_dict
  else granule_dict

/-- Modelled from the spec: the SFTP recursion loop with an exact `Nat`
budget, no further clamping. -/
def sftp_recurse_at (reS : String → String → Bool) (fre dre : Option String) :
    SftpTree → String → Nat → AList GranuleEntry → AList GranuleEntry
  | .nil, _, _, acc => acc
  | .cons name st sub rest, path, n, acc =>
    if st.ftype == 'd' && optMatch reS dre path then
      let m := sftp_level reS fre dre name sub []
      let r := if n > 0 then sftp_recurse_at reS fre dre sub name (n - 1) m else m
      sftp_recurse_at reS fre dre rest path n (dictUpdate acc r)
    else
      sftp_recurse_at reS fre dre rest path n acc

/-- Modelled from the spec: SFTP discovery whose effective recursion depth
below the starting directory is exactly `n`. -/
def discover_sftp_at (reS : String → String → Bool) (fre dre : Option String)
    (page : SftpTree) (path : String) (n : Nat) : AList GranuleEntry :=
  let granule_dict := sftp_level reS fre dre path page []
  if n > 0 then sftp_recurse_at reS fre dre page path (n - 1) granule_dict
  else granule_dict

/-- One object of an S3 `list_objects` page: `Key`, `ETag`, `LastModified`
(modelled as an integer epoch) and `Size`. -/
structure S3Object where
  key : String
  etag : String
  lastModified : Int
  size : Int
deriving DecidableEq, Repr

/-- `key = f'{protocol}://{host}/{s3_object["Key"]}'`. -/
def s3_key (protocol host : Option String) (obj : S3Object) : String :=
  pyFmt protocol ++ "://" ++ pyFmt host ++ "/" ++ obj.key

/-- The body of the object loop of `discover_granules_s3` (lines 334-349):
split the key, test both filters, and populate the result dict with the
quote-stripped `ETag`. -/
def s3_step (reS : String → String → Bool) (protocol host : Option String)
    (fre dre : Option String) (ret2 : AList GranuleEntry) (obj : S3Object) : AList GranuleEntry :=
  let key := s3_key protocol host obj
  let file_name := base_name key
  let key_dir := dir_name key
  if optMatch reS fre file_name && optMatch reS dre key_dir then
    populate_dict ret2 key (some (pyStrip obj.etag '"')) (toString obj.lastModified)
      (some obj.size)
  else ret2

/-- The entry stored for a kept S3 object. -/
def s3_entry (obj : S3Object) : GranuleEntry :=
  { etag := some (pyStrip obj.etag '"'), lastModified := some (toString obj.lastModified),
    size := some obj.size }

/-- `discover_granules_s3(host, prefix, file_reg_ex, dir_reg_ex)` over the
pages of the paginator: every listed object is a file; it is kept when
`file_reg_ex` matches the base name and `dir_reg_ex` matches the directory
part of the key; the stored `ETag` has surrounding quote characters
stripped. -/
def discover_granules_s3 (reS : String → String → Bool) (protocol host : Option String)
    (fre dre : Option String) (pages : List (List S3Object)) : AList GranuleEntry :=
  pages.foldl (fun ret page => page.foldl (s3_step reS protocol host fre dre) ret) []

/-- The policy-resolution step of `check_granule_updates_db` (lines
206-213): the policy actually dispatched (`db_{duplicates}`) as a string.
`duplicateHandling` defaults to `'skip'`, `force_replace` to `'false'`;
both are lowered; `'replace'` is demoted to `'skip'` unless
`force_replace` is exactly `'false'`-negating. -/
def duplicates_policy (duplicateHandling force_replace : Option String) : String :=
  let duplicates := pyLower (pyGet duplicateHandling "skip")
  let force := pyLower (pyGet force_replace "false")
  if duplicates = "replace" ∧ force = "false" then "skip" else duplicates

/-- The value built for one entry of the routing `mapping` in
`cumulus_output_generator`: `{'bucket': …, 'lzards': …}`. -/
structure RuleVal where
  bucket : Option String
  lzards : Option Bool
deriving DecidableEq, Repr

/-- One entry of the collection `files` list: `regex`, `bucket` and
`lzards.backup` (each of the last two possibly absent). -/
structure FileDict where
  regex : String
  bucket : Option String
  lzards : Option Bool
deriving DecidableEq, Repr

/-- The mapping-construction loop of `cumulus_output_generator` (lines
476-481): `mapping[reg] = {'bucket': bucket, 'lzards': lzards}` — a dict
keyed by the regex string, so a repeated regex overwrites the earlier
value while keeping its position. -/
def build_mapping (files_list : List FileDict) : List (String × RuleVal) :=
  files_list.foldl (fun m fd => dictSet m fd.regex { bucket := fd.bucket, lzards := fd.lzards }) []

/-- The result of `get_path`. -/
structure PathName where
  path : String
  name : String
deriving DecidableEq, Repr

/-- `get_path(key)`: split the key on the last `'/'` and strip the
provider-root prefix from the directory part. -/
def get_path (protocol host : Option String) (key : String) : PathName :=
  let name := base_name key
  let replace_str := pyFmt protocol ++ "://" ++ pyFmt host ++ "/"
  { path := (dir_name key).replace replace_str "", name := name }

/-- One element of the `files` array of a cumulus record.  The Python dict
key `type` is rendered here as `rtype`. -/
structure CumulusFile where
  bucket : String
  checksum : Option String
  checksumType : String
  filename : String
  name : String
  path : String
  size : Option Int
  time : Option String
  rtype : String
deriving DecidableEq, Repr

/-- One cumulus record, as returned by `generate_cumulus_record`. -/
structure CumulusRecord where
  granuleId : String
  dataType : String
  version : String
  files : List CumulusFile
deriving DecidableEq, Repr

/-- `generate_cumulus_record(key, value, mapping)`: the first mapping entry
whose regex matches the base name supplies `temp_dict`; `lzards` truthiness
(only `True` is truthy) selects the checksum policy; the bucket is the
f-string `f'{config_stack}-{temp_dict.get("bucket")}'`. -/
def generate_cumulus_record (reS : String → String → Bool)
    (config_stack protocol host collection_name version : Option String)
    (mapping : List (String × RuleVal)) (key : String) (value : GranuleEntry) : CumulusRecord :=
  let epoch := value.lastModified
  let pn := get_path protocol host key
  let temp := mapping.find? (fun p => reS p.1 pn.name)
  let lzards := temp.bind (fun p => p.2.lzards)
  let checksum : Option String := if lzards = some true then value.etag else some ""
  let checksum_type : String := if lzards = some true then "md5" else ""
  { granuleId := pn.name
    dataType := pyGet collection_name ""
    version := pyGet version ""
    files := [{
      bucket := pyFmt config_stack ++ "-" ++ pyFmt (temp.bind (fun p => p.2.bucket))
      checksum := checksum
      checksumType := checksum_type
      filename := key
      name := pn.name
      path := pn.path
      size := value.size
      time := epoch
      rtype := "" }] }

/-- `cumulus_output_generator(ret_dict)`: build the mapping from the
collection `files` list, then one record per discovered entry. -/
def cumulus_output_generator (reS : String → String → Bool)
    (config_stack protocol host collection_name version : Option String)
    (files_list : List FileDict) (ret_dict : AList GranuleEntry) : List CumulusRecord :=
  let mapping := build_mapping files_list
  ret_dict.map (fun kv =>
    generate_cumulus_record reS config_stack protocol host collection_name version mapping kv.1 kv.2)

/-- The value returned by `discover()`: `{'granules': output}`. -/
structure DiscoverResult (β : Type) where
  granules : List β
deriving DecidableEq, Repr

/-- The discovery branch of `discover()` (lines 110-129): reconcile the
discovered dict against the metadata store (`check_granule_updates_db`,
whose store semantics live in the external `task.dgm` module and are
passed here as `applyUpdates`), generate the cumulus output, then replace
the output by `[]` when the environment variable `no_return` lowers to
`'true'` — the store update is kept either way. -/
def discover_branch {Db β : Type} (applyUpdates : Db → AList GranuleEntry → Db)
    (gen : AList GranuleEntry → List β) (db : Db) (granule_dict : AList GranuleEntry)
    (no_return : Option String) : Db × DiscoverResult β :=
  let db2 := applyUpdates db granule_dict
  let output := gen granule_dict
  (db2, { granules := if pyLower (pyGet no_return "false") = "true" then [] else output })

/-- The `Last-Modified` values of a page contain no parseable-string case
(each is absent or a non-string object). -/
def page_lm_nonstr : HttpTree → Bool
  | .nil => true
  | .cons _ h _ rest =>
    (match h.lastModified with
     | some (HeaderVal.str _) => false
     | _ => true) && page_lm_nonstr rest

/-! ### Dictionary lemmas -/

theorem mem_dictKeys_dictSet {α : Type} (d : AList α) (k k1 : String) (v : α) :
    k1 ∈ dictKeys (dictSet d k v) ↔ k1 ∈ dictKeys d ∨ k1 = k := by
  induction d with
  | nil => simp [dictSet, dictKeys]
  | cons p rest ih =>
    by_cases h : p.1 = k
    · simp [dictSet, h, dictKeys]
      tauto
    · have hb : (p.1 == k) = false := by simpa using h
      simp only [dictKeys, List.map_cons, List.mem_cons] at ih ⊢
      simp only [dictSet, hb, Bool.false_eq_true, if_false, List.map_cons, List.mem_cons]
      rw [ih]
      tauto

theorem mem_dictKeys_dictUpdate {α : Type} (b a : AList α) (k : String) :
    k ∈ dictKeys (dictUpdate a b) ↔ k ∈ dictKeys a ∨ k ∈ dictKeys b := by
  induction b generalizing a with
  | nil => simp [dictUpdate, dictKeys]
  | cons p b2 ih =>
    have hstep : dictUpdate a (p :: b2) = dictUpdate (dictSet a p.1 p.2) b2 := rfl
    rw [hstep, ih, mem_dictKeys_dictSet]
    simp [dictKeys]
    tauto

theorem dictLookup_dictSet {α : Type} (d : AList α) (k k1 : String) (v : α) :
    dictLookup (dictSet d k v) k1 = if k1 = k then some v else dictLookup d k1 := by
  induction d with
  | nil =>
    by_cases h : k1 = k
    · simp [dictSet, dictLookup, h]
    · have hb : (k == k1) = false := by simpa using fun e : k = k1 => h e.symm
      simp [dictSet, dictLookup, hb, h]
  | cons p rest ih =>
    by_cases h : p.1 = k
    · by_cases h1 : k1 = k
      · simp [dictSet, h, dictLookup, h1]
      · have hb1 : (k == k1) = false := by simpa using fun e : k = k1 => h1 e.symm
        have hb2 : (p.1 == k1) = false := by
          rw [h]; simpa using fun e : k = k1 => h1 e.symm
        simp [dictSet, h, dictLookup, hb1, hb2, h1]
    · have hb : (p.1 == k) = false := by simpa using h
      by_cases h2 : p.1 = k1
      · have h3 : ¬ k1 = k := fun he => h (h2.trans he)
        simp [dictSet, hb, dictLookup, h2, h3]
      · have hb2 : (p.1 == k1) = false := by simpa using h2
        simp [dictSet, hb, dictLookup, hb2, ih]

theorem mem_dictSet {α : Type} (d : AList α) (k : String) (v : α) (p : String × α) :
    p ∈ dictSet d k v → p ∈ d ∨ p = (k, v) := by
  induction d with
  | nil => simp [dictSet]
  | cons q rest ih =>
    by_cases h : q.1 = k
    · have hb : (q.1 == k) = true := by simpa using h
      simp only [dictSet, hb, if_true, List.mem_cons]
      rintro (h1 | h1)
      · exact Or.inr h1
      · exact Or.inl (Or.inr h1)
    · have hb : (q.1 == k) = false := by simpa using h
      simp only [dictSet, hb, Bool.false_eq_true, if_false, List.mem_cons]
      rintro (h1 | h1)
      · exact Or.inl (Or.inl h1)
      · rcases ih h1 with h2 | h2
        · exact Or.inl (Or.inr h2)
        · exact Or.inr h2

theorem dictSet_fresh {α : Type} (d : AList α) (k : String) (v : α)
    (h : k ∉ dictKeys d) : dictSet d k v = d ++ [(k, v)] := by
  induction d with
  | nil => simp [dictSet]
  | cons p rest ih =>
    have h1 : ¬ p.1 = k := fun he => h (by simp [dictKeys, he])
    have h2 : k ∉ dictKeys rest := fun hm => h (by simp [dictKeys] at hm ⊢; tauto)
    have hb : (p.1 == k) = false := by simpa using h1
    simp [dictSet, hb, ih h2]

/-! ### List-prefix lemmas -/

theorem listLeads_refl (l : List Char) : listLeads l l = true := by
  induction l with
  | nil => rfl
  | cons a x ih => simp [listLeads, ih]

theorem listLeads_append (l t : List Char) : listLeads l (l ++ t) = true := by
  induction l with
  | nil => rfl
  | cons a x ih => simp [listLeads, ih]

theorem listLeads_trans {a b c : List Char} (h1 : listLeads a b = true)
    (h2 : listLeads b c = true) : listLeads a c = true := by
  induction a generalizing b c with
  | nil => rfl
  | cons x xs ih =>
    cases b with
    | nil => simp [listLeads] at h1
    | cons y ys =>
      cases c with
      | nil => simp [listLeads] at h2
      | cons z zs =>
        simp only [listLeads, Bool.and_eq_true, beq_iff_eq] at h1 h2 ⊢
        exact ⟨h1.1.trans h2.1, ih h1.2 h2.2⟩

theorem listLeads_comparable {a b c : List Char} (h1 : listLeads a c = true)
    (h2 : listLeads b c = true) : listLeads a b = true ∨ listLeads b a = true := by
  induction a generalizing b c with
  | nil => exact Or.inl rfl
  | cons x xs ih =>
    cases b with
    | nil => exact Or.inr rfl
    | cons y ys =>
      cases c with
      | nil => simp [listLeads] at h1
      | cons z zs =>
        simp only [listLeads, Bool.and_eq_true, beq_iff_eq] at h1 h2 ⊢
        rcases ih h1.2 h2.2 with h3 | h3
        · exact Or.inl ⟨h1.1.trans h2.1.symm, h3⟩
        · exact Or.inr ⟨h2.1.trans h1.1.symm, h3⟩

/-! ### rstrip lemmas -/

theorem rstripChars_append_same (c : Char) (l : List Char) :
    rstripChars c (l ++ [c]) = rstripChars c l := by
  induction l with
  | nil => simp [rstripChars]
  | cons a rest ih =>
    show rstripChars c (a :: (rest ++ [c])) = _
    simp only [rstripChars, ih]

theorem rstripChars_cons (c a : Char) (l : List Char) :
    rstripChars c (a :: l) =
      (match rstripChars c l with
        | [] => if a == c then [] else [a]
        | r => a :: r) := rfl

theorem rstripChars_idem (c : Char) (l : List Char) :
    rstripChars c (rstripChars c l) = rstripChars c l := by
  induction l with
  | nil => rfl
  | cons a rest ih =>
    cases h : rstripChars c rest with
    | nil =>
      rw [rstripChars_cons, h]
      by_cases ha : (a == c) = true
      · rw [if_pos ha]; rfl
      · rw [if_neg ha]
        simp [rstripChars, ha]
    | cons r rs =>
      have h3 : rstripChars c (r :: rs) = r :: rs := h ▸ ih
      rw [rstripChars_cons, h, rstripChars_cons, h3]

theorem rstripChars_no_c (c : Char) (l : List Char) (h : c ∉ l) :
    rstripChars c l = l := by
  induction l with
  | nil => rfl
  | cons a rest ih =>
    have h1 : c ∉ rest := fun hm => h (List.mem_cons_of_mem _ hm)
    have h2 : ¬ a = c := fun he => h (by simp [he])
    have hb : (a == c) = false := by simpa using h2
    rw [rstripChars_cons, ih h1]
    cases rest with
    | nil => simp [hb]
    | cons r rs => simp

theorem rstripChars_append_no_c (c : Char) (s : List Char) (hne : s ≠ [])
    (h : c ∉ s) : ∀ X : List Char, rstripChars c (X ++ s) = X ++ s := by
  intro X
  induction X with
  | nil => simpa using rstripChars_no_c c s h
  | cons x X2 ih =>
    show rstripChars c (x :: (X2 ++ s)) = _
    rw [rstripChars_cons, ih]
    cases hx : X2 ++ s with
    | nil => exact absurd (List.append_eq_nil.mp hx).2 hne
    | cons a b => simp only [hx, List.cons_append]

theorem afterLastSlash_no_slash (l : List Char) : '/' ∉ afterLastSlash l := by
  have key : ∀ (acc : List Char), '/' ∉ acc →
      '/' ∉ l.foldl (fun acc ch => if ch == '/' then [] else acc ++ [ch]) acc := by
    induction l with
    | nil => intro acc h; simpa using h
    | cons a rest ih =>
      intro acc h
      simp only [List.foldl_cons]
      by_cases ha : (a == '/') = true
      · rw [if_pos ha]
        exact ih [] (by simp)
      · rw [if_neg ha]
        refine ih (acc ++ [a]) ?_
        intro hm
        rcases List.mem_append.mp hm with hm | hm
        · exact h hm
        · simp only [List.mem_singleton] at hm
          exact ha (by simp [hm.symm])
  exact key [] (by simp)

/-! ### String-shape lemmas for HTTP paths -/

theorem string_data_append (s t : String) : (s ++ t).data = s.data ++ t.data := rfl

theorem http_path_data (url href : String) :
    (http_path url href).data = rstripChars '/' url.data ++ '/' :: (http_seg href).data := by
  show (pyRstrip url '/' ++ "/" ++ http_seg href).data = _
  rw [string_data_append, string_data_append]
  show (rstripChars '/' url.data ++ ['/']) ++ (http_seg href).data = _
  rw [List.append_assoc]
  rfl

theorem http_seg_no_slash (href : String) : '/' ∉ (http_seg href).data :=
  afterLastSlash_no_slash (rstripChars '/' href.data)

/-- The stripped start URL leads the stripped URL of every queued
subdirectory (`path + "/"`). -/
theorem leads_rstrip_child (url href : String) :
    listLeads (rstripChars '/' url.data)
      (rstripChars '/' ((http_path url href ++ "/").data)) = true := by
  rw [string_data_append, http_path_data]
  show listLeads (rstripChars '/' url.data)
    (rstripChars '/' ((rstripChars '/' url.data ++ '/' :: (http_seg href).data) ++ ['/'])) = true
  rw [rstripChars_append_same]
  cases hs : (http_seg href).data with
  | nil =>
    rw [rstripChars_append_same, rstripChars_idem]
    exact listLeads_refl _
  | cons a b =>
    rw [← hs]
    have hne : (http_seg href).data ≠ [] := by rw [hs]; simp
    have hnoc : '/' ∉ (http_seg href).data := http_seg_no_slash href
    have hsplit : rstripChars '/' url.data ++ '/' :: (http_seg href).data
        = (rstripChars '/' url.data ++ ['/']) ++ (http_seg href).data := by
      rw [List.append_assoc]; rfl
    rw [hsplit, rstripChars_append_no_c '/' _ hne hnoc]
    have : (rstripChars '/' url.data ++ ['/']) ++ (http_seg href).data
        = rstripChars '/' url.data ++ ('/' :: (http_seg href).data) := by
      rw [List.append_assoc]; rfl
    rw [this]
    exact listLeads_append _ _

/-! ### HTTP level characterization -/

theorem http_level_ok_keys (pT : String → Option Int) (reS : String → String → Bool)
    (fre : Option String) (url : String) :
    ∀ (page : HttpTree) (acc m : AList GranuleEntry),
      http_level pT reS fre url page acc = Except.ok m →
      ∀ p, p ∈ dictKeys m ↔ p ∈ dictKeys acc ∨ ∃ c ∈ http_children page,
        http_path url c.1 = p ∧ (c.2.1.etag.isSome = true ∨ c.2.1.lastModified.isSome = true) ∧
        optMatch reS fre (http_seg c.1) = true := by
  intro page
  induction page with
  | nil =>
    intro acc m h p
    simp only [http_level] at h
    cases h
    simp [http_children]
  | cons href hd sub rest ihsub ihrest =>
    intro acc m h p
    simp only [http_level] at h
    by_cases hc : ((hd.etag.isSome || hd.lastModified.isSome)
        && optMatch reS fre (http_seg href)) = true
    · rw [if_pos hc] at h
      have hmark : (hd.etag.isSome = true ∨ hd.lastModified.isSome = true) ∧
          optMatch reS fre (http_seg href) = true := by
        simpa only [Bool.and_eq_true, Bool.or_eq_true] using hc
      cases hlm : hd.lastModified with
      | none =>
        simp only [hlm] at h
        rw [ihrest _ _ h p, mem_dictKeys_dictSet]
        simp only [http_children, List.mem_cons]
        constructor
        · rintro ((h1 | h1) | h1)
          · exact Or.inl h1
          · exact Or.inr ⟨(href, hd, sub), Or.inl rfl, h1.symm, hmark.1, hmark.2⟩
          · rcases h1 with ⟨c, hcm, hp⟩
            exact Or.inr ⟨c, Or.inr hcm, hp⟩
        · rintro (h1 | ⟨c, hcm | hcm, hp⟩)
          · exact Or.inl (Or.inl h1)
          · subst hcm
            exact Or.inl (Or.inr hp.1.symm)
          · exact Or.inr ⟨c, hcm, hp⟩
      | some hv =>
        cases hv with
        | str s =>
          cases hpt : pT s with
          | some t =>
            simp only [hlm, hpt] at h
            rw [ihrest _ _ h p, mem_dictKeys_dictSet]
            simp only [http_children, List.mem_cons]
            constructor
            · rintro ((h1 | h1) | h1)
              · exact Or.inl h1
              · exact Or.inr ⟨(href, hd, sub), Or.inl rfl, h1.symm, hmark.1, hmark.2⟩
              · rcases h1 with ⟨c, hcm, hp⟩
                exact Or.inr ⟨c, Or.inr hcm, hp⟩
            · rintro (h1 | ⟨c, hcm | hcm, hp⟩)
              · exact Or.inl (Or.inl h1)
              · subst hcm
                exact Or.inl (Or.inr hp.1.symm)
              · exact Or.inr ⟨c, hcm, hp⟩
          | none =>
            simp only [hlm, hpt] at h
            cases h
        | nonStr =>
          simp only [hlm] at h
          rw [ihrest _ _ h p, mem_dictKeys_dictSet]
          simp only [http_children, List.mem_cons]
          constructor
          · rintro ((h1 | h1) | h1)
            · exact Or.inl h1
            · exact Or.inr ⟨(href, hd, sub), Or.inl rfl, h1.symm, hmark.1, hmark.2⟩
            · rcases h1 with ⟨c, hcm, hp⟩
              exact Or.inr ⟨c, Or.inr hcm, hp⟩
          · rintro (h1 | ⟨c, hcm | hcm, hp⟩)
            · exact Or.inl (Or.inl h1)
            · subst hcm
              exact Or.inl (Or.inr hp.1.symm)
            · exact Or.inr ⟨c, hcm, hp⟩
    · rw [if_neg hc] at h
      have hc2 : ¬((hd.etag.isSome = true ∨ hd.lastModified.isSome = true) ∧
          optMatch reS fre (http_seg href) = true) := by
        simpa only [Bool.and_eq_true, Bool.or_eq_true] using hc
      rw [ihrest _ _ h p]
      simp only [http_children, List.mem_cons]
      constructor
      · rintro (h1 | ⟨c, hcm, hp⟩)
        · exact Or.inl h1
        · exact Or.inr ⟨c, Or.inr hcm, hp⟩
      · rintro (h1 | ⟨c, hcm | hcm, hp⟩)
        · exact Or.inl h1
        · subst hcm
          exact absurd ⟨hp.2.1, hp.2.2⟩ hc2
        · exact Or.inr ⟨c, hcm, hp⟩

/-- Keys added by one page listing extend the stripped page URL. -/
theorem http_level_leads (pT : String → Option Int) (reS : String → String → Bool)
    (fre : Option String) (url : String) :
    ∀ (page : HttpTree) (acc m : AList GranuleEntry),
      http_level pT reS fre url page acc = Except.ok m →
      ∀ k ∈ dictKeys m, k ∈ dictKeys acc ∨
        listLeads (rstripChars '/' url.data) k.data = true := by
  intro page
  induction page with
  | nil =>
    intro acc m h k hk
    simp only [http_level] at h
    cases h
    exact Or.inl hk
  | cons href hd sub rest ihsub ihrest =>
    intro acc m h k hk
    simp only [http_level] at h
    have hkey : ∀ e : GranuleEntry, k ∈ dictKeys (dictSet acc (http_path url href) e) →
        k ∈ dictKeys acc ∨ listLeads (rstripChars '/' url.data) k.data = true := by
      intro e hke
      rcases (mem_dictKeys_dictSet acc (http_path url href) k e).mp hke with h1 | h1
      · exact Or.inl h1
      · subst h1
        rw [http_path_data]
        exact Or.inr (listLeads_append _ _)
    by_cases hc : ((hd.etag.isSome || hd.lastModified.isSome)
        && optMatch reS fre (http_seg href)) = true
    · rw [if_pos hc] at h
      cases hlm : hd.lastModified with
      | none =>
        simp only [hlm] at h
        rcases ihrest _ _ h k hk with h1 | h1
        · exact hkey _ h1
        · exact Or.inr h1
      | some hv =>
        cases hv with
        | str s =>
          cases hpt : pT s with
          | some t =>
            simp only [hlm, hpt] at h
            rcases ihrest _ _ h k hk with h1 | h1
            · exact hkey _ h1
            · exact Or.inr h1
          | none =>
            simp only [hlm, hpt] at h
            cases h
        | nonStr =>
          simp only [hlm] at h
          rcases ihrest _ _ h k hk with h1 | h1
          · exact hkey _ h1
          · exact Or.inr h1
    · rw [if_neg hc] at h
      exact ihrest _ _ h k hk

/-- Keys added by the HTTP recursion loop extend the stripped page URL. -/
theorem http_recurse_leads (pT : String → Option Int) (reS : String → String → Bool)
    (fre dre : Option String) :
    ∀ (page : HttpTree) (url : String) (n : Nat) (acc m : AList GranuleEntry),
      http_recurse pT reS fre dre page url n acc = Except.ok m →
      ∀ k ∈ dictKeys m, k ∈ dictKeys acc ∨
        listLeads (rstripChars '/' url.data) k.data = true := by
  intro page
  induction page with
  | nil =>
    intro url n acc m h k hk
    simp only [http_recurse] at h
    cases h
    exact Or.inl hk
  | cons href hd sub rest ihsub ihrest =>
    intro url n acc m h k hk
    simp only [http_recurse] at h
    split at h
    · split at h
      · cases h
      · rename_i m0 hlev
        split at h
        · cases h
        · rename_i rm hrm
          have hrmkeys : ∀ k2 ∈ dictKeys rm,
              listLeads (rstripChars '/' (http_path url href ++ "/").data) k2.data = true := by
            intro k2 hk2
            by_cases hd2 : 0 < min (Int.ofNat n).natAbs 3
            · rw [if_pos hd2] at hrm
              rcases ihsub _ _ _ _ hrm k2 hk2 with h1 | h1
              · rcases http_level_leads pT reS fre _ sub [] m0 hlev k2 h1 with h2 | h2
                · simp [dictKeys] at h2
                · exact h2
              · exact h1
            · rw [if_neg hd2] at hrm
              cases hrm
              rcases http_level_leads pT reS fre _ sub [] _ hlev k2 hk2 with h2 | h2
              · simp [dictKeys] at h2
              · exact h2
          rcases ihrest url n _ m h k hk with h1 | h1
          · rcases (mem_dictKeys_dictUpdate rm acc k).mp h1 with h2 | h2
            · exact Or.inl h2
            · exact Or.inr (listLeads_trans (leads_rstrip_child url href) (hrmkeys k h2))
          · exact Or.inr h1
    · exact ihrest url n acc m h k hk

/-- Every key produced by one HTTP discovery run extends the stripped
starting URL: keys encode full location paths. -/
theorem discover_http_leads (pT : String → Option Int) (reS : String → String → Bool)
    (fre dre : Option String) (page : HttpTree) (url : String) (d : Int)
    (m : AList GranuleEntry)
    (h : discover_granules_http pT reS fre dre page url d = Except.ok m) :
    ∀ k ∈ dictKeys m, listLeads (rstripChars '/' url.data) k.data = true := by
  intro k hk
  simp only [discover_granules_http] at h
  split at h
  · cases h
  · rename_i m0 hlev
    split at h
    · rcases http_recurse_leads pT reS fre dre page url _ m0 m h k hk with h1 | h1
      · rcases http_level_leads pT reS fre url page [] m0 hlev k h1 with h2 | h2
        · simp [dictKeys] at h2
        · exact h2
      · exact h1
    · cases h
      rcases http_level_leads pT reS fre url page [] m hlev k hk with h2 | h2
      · simp [dictKeys] at h2
      · exact h2

/-! ### Depth-clamping equivalences -/

theorem http_recurse_at_eq (pT : String → Option Int) (reS : String → String → Bool)
    (fre dre : Option String) :
    ∀ (page : HttpTree) (url : String) (n : Nat) (acc : AList GranuleEntry), n ≤ 2 →
      http_recurse pT reS fre dre page url n acc
        = http_recurse_at pT reS fre dre page url n acc := by
  intro page
  induction page with
  | nil => intro url n acc hn; rfl
  | cons href hd sub rest ihsub ihrest =>
    intro url n acc hn
    simp only [http_recurse, http_recurse_at]
    have hmin : min (Int.ofNat n).natAbs 3 = n := by
      have h1 : (Int.ofNat n).natAbs = n := rfl
      rw [h1]
      exact Nat.min_eq_left (by omega)
    rw [hmin]
    by_cases hc : ((hd.etag.isNone && hd.lastModified.isNone)
        && optMatch reS dre (http_path url href)) = true
    · rw [if_pos hc, if_pos hc]
      cases http_level pT reS fre (http_path url href ++ "/") sub [] with
      | error e => rfl
      | ok m0 =>
        dsimp only
        by_cases hp : 0 < n
        · rw [if_pos hp, if_pos hp, ihsub _ (n - 1) m0 (by omega)]
          cases http_recurse_at pT reS fre dre sub (http_path url href ++ "/") (n - 1) m0 with
          | error e => rfl
          | ok rm =>
            dsimp only
            exact ihrest url n (dictUpdate acc rm) hn
        · rw [if_neg hp, if_neg hp]
          exact ihrest url n (dictUpdate acc m0) hn
    · rw [if_neg hc, if_neg hc]
      exact ihrest url n acc hn

theorem discover_http_at_eq (pT : String → Option Int) (reS : String → String → Bool)
    (fre dre : Option String) (page : HttpTree) (url : String) (d : Int) :
    discover_granules_http pT reS fre dre page url d
      = discover_http_at pT reS fre dre page url (min d.natAbs 3) := by
  simp only [discover_granules_http, discover_http_at]
  cases http_level pT reS fre url page [] with
  | error e => rfl
  | ok m0 =>
    dsimp only
    by_cases hp : 0 < min d.natAbs 3
    · have hle : min d.natAbs 3 ≤ 3 := Nat.min_le_right _ _
      rw [if_pos hp, if_pos hp, http_recurse_at_eq pT reS fre dre page url _ m0 (by omega)]
    · rw [if_neg hp, if_neg hp]

theorem sftp_recurse_at_eq (reS : String → String → Bool) (fre dre : Option String) :
    ∀ (page : SftpTree) (path : String) (n : Nat) (acc : AList GranuleEntry), n ≤ 2 →
      sftp_recurse reS fre dre page path n acc
        = sftp_recurse_at reS fre dre page path n acc := by
  intro page
  induction page with
  | nil => intro path n acc hn; rfl
  | cons name st sub rest ihsub ihrest =>
    intro path n acc hn
    simp only [sftp_recurse, sftp_recurse_at]
    have hmin : min (Int.ofNat n).natAbs 3 = n := by
      have h1 : (Int.ofNat n).natAbs = n := rfl
      rw [h1]
      exact Nat.min_eq_left (by omega)
    rw [hmin]
    by_cases hc : (st.ftype == 'd' && optMatch reS dre path) = true
    · rw [if_pos hc, if_pos hc]
      by_cases hp : 0 < n
      · rw [if_pos hp, if_pos hp, ihsub name (n - 1) _ (by omega)]
        exact ihrest path n _ hn
      · rw [if_neg hp, if_neg hp]
        exact ihrest path n _ hn
    · rw [if_neg hc, if_neg hc]
      exact ihrest path n acc hn

theorem discover_sftp_at_eq (reS : String → String → Bool) (fre dre : Option String)
    (page : SftpTree) (path : String) (d : Int) :
    discover_granules_sftp reS fre dre page path d
      = discover_sftp_at reS fre dre page path (min d.natAbs 3) := by
  simp only [discover_granules_sftp, discover_sftp_at]
  by_cases hp : 0 < min d.natAbs 3
  · have hle : min d.natAbs 3 ≤ 3 := Nat.min_le_right _ _
    rw [if_pos hp, if_pos hp, sftp_recurse_at_eq reS fre dre page path _ _ (by omega)]
  · rw [if_neg hp, if_neg hp]

/-! ### Directory-queue characterizations -/

theorem mem_http_dirs (reS : String → String → Bool) (dre : Option String) (url : String) :
    ∀ (page : HttpTree) (p : String) (t : HttpTree),
      (p, t) ∈ http_dirs reS dre url page ↔ ∃ c ∈ http_children page,
        c.2.1.etag = none ∧ c.2.1.lastModified = none ∧
        optMatch reS dre (http_path url c.1) = true ∧
        p = http_path url c.1 ++ "/" ∧ t = c.2.2 := by
  intro page
  induction page with
  | nil => intro p t; simp [http_dirs, http_children]
  | cons href hd sub rest ihsub ihrest =>
    intro p t
    simp only [http_dirs, http_children]
    by_cases hc : ((hd.etag.isNone && hd.lastModified.isNone)
        && optMatch reS dre (http_path url href)) = true
    · rw [if_pos hc]
      have hc2 : hd.etag = none ∧ hd.lastModified = none ∧
          optMatch reS dre (http_path url href) = true := by
        simpa [Bool.and_eq_true, Option.isNone_iff_eq_none, and_assoc] using hc
      simp only [List.mem_cons]
      constructor
      · rintro (h1 | h1)
        · rw [Prod.mk.injEq] at h1
          exact ⟨(href, hd, sub), Or.inl rfl, hc2.1, hc2.2.1, hc2.2.2, h1.1, h1.2⟩
        · rcases (ihrest p t).mp h1 with ⟨c, hcm, hcond⟩
          exact ⟨c, Or.inr hcm, hcond⟩
      · rintro ⟨c, hcm | hcm, hcond⟩
        · subst hcm
          exact Or.inl (by rw [Prod.mk.injEq]; exact ⟨hcond.2.2.2.1, hcond.2.2.2.2⟩)
        · exact Or.inr ((ihrest p t).mpr ⟨c, hcm, hcond⟩)
    · rw [if_neg hc]
      have hc2 : ¬(hd.etag = none ∧ hd.lastModified = none ∧
          optMatch reS dre (http_path url href) = true) := by
        simpa [Bool.and_eq_true, Option.isNone_iff_eq_none, and_assoc] using hc
      rw [ihrest p t]
      simp only [List.mem_cons]
      constructor
      · rintro ⟨c, hcm, hcond⟩
        exact ⟨c, Or.inr hcm, hcond⟩
      · rintro ⟨c, hcm | hcm, hcond⟩
        · subst hcm
          exact absurd ⟨hcond.1, hcond.2.1, hcond.2.2.1⟩ hc2
        · exact ⟨c, hcm, hcond⟩

theorem mem_sftp_dirs (reS : String → String → Bool) (dre : Option String) (path : String) :
    ∀ (page : SftpTree) (nm : String) (t : SftpTree),
      (nm, t) ∈ sftp_dirs reS dre path page ↔ ∃ c ∈ sftp_children page,
        c.2.1.ftype = 'd' ∧ optMatch reS dre path = true ∧ nm = c.1 ∧ t = c.2.2 := by
  intro page
  induction page with
  | nil => intro nm t; simp [sftp_dirs, sftp_children]
  | cons name st sub rest ihsub ihrest =>
    intro nm t
    simp only [sftp_dirs, sftp_children]
    by_cases hc : (st.ftype == 'd' && optMatch reS dre path) = true
    · rw [if_pos hc]
      have hc2 : st.ftype = 'd' ∧ optMatch reS dre path = true := by
        simpa [Bool.and_eq_true] using hc
      simp only [List.mem_cons]
      constructor
      · rintro (h1 | h1)
        · rw [Prod.mk.injEq] at h1
          exact ⟨(name, st, sub), Or.inl rfl, hc2.1, hc2.2, h1.1, h1.2⟩
        · rcases (ihrest nm t).mp h1 with ⟨c, hcm, hcond⟩
          exact ⟨c, Or.inr hcm, hcond⟩
      · rintro ⟨c, hcm | hcm, hcond⟩
        · subst hcm
          exact Or.inl (by rw [Prod.mk.injEq]; exact ⟨hcond.2.2.1, hcond.2.2.2⟩)
        · exact Or.inr ((ihrest nm t).mpr ⟨c, hcm, hcond⟩)
    · rw [if_neg hc]
      have hc2 : ¬(st.ftype = 'd' ∧ optMatch reS dre path = true) := by
        simpa [Bool.and_eq_true] using hc
      rw [ihrest nm t]
      simp only [List.mem_cons]
      constructor
      · rintro ⟨c, hcm, hcond⟩
        exact ⟨c, Or.inr hcm, hcond⟩
      · rintro ⟨c, hcm | hcm, hcond⟩
        · subst hcm
          exact absurd ⟨hcond.1, hcond.2.1⟩ hc2
        · exact ⟨c, hcm, hcond⟩

/-! ### The recursion loops process exactly the queued directory lists -/

theorem http_recurse_dirs_fold (pT : String → Option Int) (reS : String → String → Bool)
    (fre dre : Option String) :
    ∀ (page : HttpTree) (url : String) (n : Nat) (acc : AList GranuleEntry),
      http_recurse pT reS fre dre page url n acc
        = (http_dirs reS dre url page).foldlM
            (fun a pt => Except.map (fun r => dictUpdate a r)
              (discover_granules_http pT reS fre dre pt.2 pt.1 (Int.ofNat n))) acc := by
  intro page
  induction page with
  | nil => intro url n acc; rfl
  | cons href hd sub rest ihsub ihrest =>
    intro url n acc
    simp only [http_recurse, http_dirs, discover_granules_http]
    by_cases hc : ((hd.etag.isNone && hd.lastModified.isNone)
        && optMatch reS dre (http_path url href)) = true
    · rw [if_pos hc, if_pos hc, List.foldlM_cons]
      cases http_level pT reS fre (http_path url href ++ "/") sub [] with
      | error e => rfl
      | ok m0 =>
        dsimp only
        cases hr : (if 0 < min (Int.ofNat n).natAbs 3 then
            http_recurse pT reS fre dre sub (http_path url href ++ "/")
              (min (Int.ofNat n).natAbs 3 - 1) m0
          else Except.ok m0) with
        | error e => rfl
        | ok rm =>
          dsimp only [Except.map]
          show http_recurse pT reS fre dre rest url n (dictUpdate acc rm) = _
          rw [ihrest url n (dictUpdate acc rm)]
          rfl
    · rw [if_neg hc, if_neg hc]
      exact ihrest url n acc

theorem sftp_recurse_dirs_fold (reS : String → String → Bool) (fre dre : Option String) :
    ∀ (page : SftpTree) (path : String) (n : Nat) (acc : AList GranuleEntry),
      sftp_recurse reS fre dre page path n acc
        = (sftp_dirs reS dre path page).foldl
            (fun a pt =>
              dictUpdate a (discover_granules_sftp reS fre dre pt.2 pt.1 (Int.ofNat n))) acc := by
  intro page
  induction page with
  | nil => intro path n acc; rfl
  | cons name st sub rest ihsub ihrest =>
    intro path n acc
    simp only [sftp_recurse, sftp_dirs, discover_granules_sftp]
    by_cases hc : (st.ftype == 'd' && optMatch reS dre path) = true
    · rw [if_pos hc, if_pos hc, List.foldl_cons]
      exact ihrest path n _
    · rw [if_neg hc, if_neg hc]
      exact ihrest path n acc

/-! ### Success of a listing with no parseable-string timestamps -/

theorem http_level_nonstr_ok (pT : String → Option Int) (reS : String → String → Bool)
    (fre : Option String) (url : String) :
    ∀ (page : HttpTree) (acc : AList GranuleEntry), page_lm_nonstr page = true →
      ∃ m, http_level pT reS fre url page acc = Except.ok m := by
  intro page
  induction page with
  | nil => intro acc _; exact ⟨acc, rfl⟩
  | cons href hd sub rest ihsub ihrest =>
    intro acc h
    simp only [page_lm_nonstr, Bool.and_eq_true] at h
    simp only [http_level]
    by_cases hc : ((hd.etag.isSome || hd.lastModified.isSome)
        && optMatch reS fre (http_seg href)) = true
    · rw [if_pos hc]
      cases hlm : hd.lastModified with
      | none =>
        simp only [hlm]
        exact ihrest _ h.2
      | some hv =>
        cases hv with
        | str s => simp [hlm] at h
        | nonStr =>
          simp only [hlm]
          exact ihrest _ h.2
    · rw [if_neg hc]
      exact ihrest _ h.2

/-! ### Routing-mapping lemmas -/

theorem mem_build_mapping_fold (files_list : List FileDict) :
    ∀ (acc : List (String × RuleVal)) (p : String × RuleVal),
      p ∈ files_list.foldl
        (fun m fd => dictSet m fd.regex { bucket := fd.bucket, lzards := fd.lzards }) acc →
      p ∈ acc ∨ ∃ fd ∈ files_list, p.1 = fd.regex := by
  induction files_list with
  | nil => intro acc p h; exact Or.inl h
  | cons fd rest ih =>
    intro acc p h
    rw [List.foldl_cons] at h
    rcases ih _ p h with h1 | h1
    · rcases mem_dictSet acc fd.regex _ p h1 with h2 | rfl
      · exact Or.inl h2
      · exact Or.inr ⟨fd, List.mem_cons_self _ _, rfl⟩
    · rcases h1 with ⟨fd2, hm, he⟩
      exact Or.inr ⟨fd2, List.mem_cons_of_mem _ hm, he⟩

theorem build_mapping_find_none (reS : String → String → Bool) (files_list : List FileDict)
    (nm : String) (h : ∀ fd ∈ files_list, reS fd.regex nm = false) :
    (build_mapping files_list).find? (fun p => reS p.1 nm) = none := by
  rw [List.find?_eq_none]
  intro p hp
  rcases mem_build_mapping_fold files_list [] p hp with h1 | h1
  · simp at h1
  · rcases h1 with ⟨fd, hm, he⟩
    rw [he, h fd hm]
    simp

theorem build_mapping_aux (files_list : List FileDict) :
    ∀ acc : List (String × RuleVal),
      (∀ fd ∈ files_list, fd.regex ∉ dictKeys acc) →
      (files_list.map FileDict.regex).Nodup →
      files_list.foldl
        (fun m fd => dictSet m fd.regex { bucket := fd.bucket, lzards := fd.lzards }) acc
        = acc ++ files_list.map
            (fun fd => (fd.regex, ({ bucket := fd.bucket, lzards := fd.lzards } : RuleVal))) := by
  induction files_list with
  | nil => intro acc _ _; simp
  | cons fd rest ih =>
    intro acc hfresh hnd
    rw [List.map_cons, List.nodup_cons] at hnd
    have hfresh2 : ∀ fd2 ∈ rest, fd2.regex ∉
        dictKeys (acc ++ [(fd.regex, ({ bucket := fd.bucket, lzards := fd.lzards } : RuleVal))]) := by
      intro fd2 hm hmem
      rw [dictKeys, List.map_append] at hmem
      rcases List.mem_append.mp hmem with h1 | h1
      · exact hfresh fd2 (List.mem_cons_of_mem _ hm) h1
      · simp only [List.map_cons, List.map_nil, List.mem_singleton] at h1
        refine hnd.1 ?_
        rw [← h1]
        exact List.mem_map_of_mem FileDict.regex hm
    rw [List.foldl_cons, dictSet_fresh acc fd.regex _ (hfresh fd (List.mem_cons_self _ _)),
      ih _ hfresh2 hnd.2, List.map_cons, List.append_assoc]
    rfl

theorem build_mapping_eq_map (files_list : List FileDict)
    (h : (files_list.map FileDict.regex).Nodup) :
    build_mapping files_list
      = files_list.map
          (fun fd => (fd.regex, ({ bucket := fd.bucket, lzards := fd.lzards } : RuleVal))) := by
  have haux := build_mapping_aux files_list [] (by simp [dictKeys]) h
  simpa [build_mapping] using haux

theorem find_first_rule (reS : String → String → Bool) (files_list : List FileDict)
    (nm : String) (h : (files_list.map FileDict.regex).Nodup) :
    (build_mapping files_list).find? (fun p => reS p.1 nm)
      = (files_list.find? (fun fd => reS fd.regex nm)).map
          (fun fd => (fd.regex, ({ bucket := fd.bucket, lzards := fd.lzards } : RuleVal))) := by
  rw [build_mapping_eq_map files_list h, List.find?_map]
  rfl

/-! ### S3 fold characterization -/

theorem s3_fold_keys (reS : String → String → Bool) (protocol host fre dre : Option String) :
    ∀ (l : List S3Object) (acc : AList GranuleEntry) (k : String),
      k ∈ dictKeys (l.foldl (s3_step reS protocol host fre dre) acc) ↔
        k ∈ dictKeys acc ∨ ∃ obj ∈ l, s3_key protocol host obj = k ∧
          optMatch reS fre (base_name (s3_key protocol host obj)) = true ∧
          optMatch reS dre (dir_name (s3_key protocol host obj)) = true := by
  intro l
  induction l with
  | nil => intro acc k; simp
  | cons obj rest ih =>
    intro acc k
    rw [List.foldl_cons, ih]
    by_cases hc : (optMatch reS fre (base_name (s3_key protocol host obj))
        && optMatch reS dre (dir_name (s3_key protocol host obj))) = true
    · have hc2 := (Bool.and_eq_true _ _).mp hc
      have hstep : s3_step reS protocol host fre dre acc obj
          = dictSet acc (s3_key protocol host obj) (s3_entry obj) := by
        simp only [s3_step]
        rw [if_pos hc]
        rfl
      rw [hstep, mem_dictKeys_dictSet]
      simp only [List.mem_cons]
      constructor
      · rintro ((h1 | h1) | h1)
        · exact Or.inl h1
        · exact Or.inr ⟨obj, Or.inl rfl, h1.symm, hc2.1, hc2.2⟩
        · rcases h1 with ⟨obj2, hm, hcond⟩
          exact Or.inr ⟨obj2, Or.inr hm, hcond⟩
      · rintro (h1 | ⟨obj2, hm | hm, hcond⟩)
        · exact Or.inl (Or.inl h1)
        · subst hm
          exact Or.inl (Or.inr hcond.1.symm)
        · exact Or.inr ⟨obj2, hm, hcond⟩
    · have hstep : s3_step reS protocol host fre dre acc obj = acc := by
        simp only [s3_step]
        rw [if_neg hc]
      rw [hstep]
      have hc2 : ¬(optMatch reS fre (base_name (s3_key protocol host obj)) = true ∧
          optMatch reS dre (dir_name (s3_key protocol host obj)) = true) := by
        simpa [Bool.and_eq_true] using hc
      constructor
      · rintro (h1 | ⟨obj2, hm, hcond⟩)
        · exact Or.inl h1
        · exact Or.inr ⟨obj2, List.mem_cons_of_mem _ hm, hcond⟩
      · rintro (h1 | ⟨obj2, hm, hcond⟩)
        · exact Or.inl h1
        · rcases List.mem_cons.mp hm with hm1 | hm1
          · subst hm1
            exact absurd ⟨hcond.2.1, hcond.2.2⟩ hc2
          · exact Or.inr ⟨obj2, hm1, hcond⟩

theorem s3_fold_lookup (reS : String → String → Bool) (protocol host fre dre : Option String) :
    ∀ (l : List S3Object) (acc : AList GranuleEntry) (k : String) (e : GranuleEntry),
      dictLookup (l.foldl (s3_step reS protocol host fre dre) acc) k = some e →
        dictLookup acc k = some e ∨ ∃ obj ∈ l, s3_key protocol host obj = k ∧
          optMatch reS fre (base_name (s3_key protocol host obj)) = true ∧
          optMatch reS dre (dir_name (s3_key protocol host obj)) = true ∧
          e = s3_entry obj := by
  intro l
  induction l with
  | nil => intro acc k e h; exact Or.inl h
  | cons obj rest ih =>
    intro acc k e h
    rw [List.foldl_cons] at h
    rcases ih _ k e h with h1 | h1
    · by_cases hc : (optMatch reS fre (base_name (s3_key protocol host obj))
          && optMatch reS dre (dir_name (s3_key protocol host obj))) = true
      · have hc2 := (Bool.and_eq_true _ _).mp hc
        have hstep : s3_step reS protocol host fre dre acc obj
            = dictSet acc (s3_key protocol host obj) (s3_entry obj) := by
          simp only [s3_step]
          rw [if_pos hc]
          rfl
        rw [hstep, dictLookup_dictSet] at h1
        by_cases hk : k = s3_key protocol host obj
        · rw [if_pos hk] at h1
          refine Or.inr ⟨obj, List.mem_cons_self _ _, hk.symm, hc2.1, hc2.2, ?_⟩
          exact (Option.some.injEq _ _ ▸ h1).symm
        · rw [if_neg hk] at h1
          exact Or.inl h1
      · have hstep : s3_step reS protocol host fre dre acc obj = acc := by
          simp only [s3_step]
          rw [if_neg hc]
        rw [hstep] at h1
        exact Or.inl h1
    · rcases h1 with ⟨obj2, hm, hcond⟩
      exact Or.inr ⟨obj2, List.mem_cons_of_mem _ hm, hcond⟩

theorem s3_pages_keys (reS : String → String → Bool) (protocol host fre dre : Option String) :
    ∀ (pages : List (List S3Object)) (acc : AList GranuleEntry) (k : String),
      k ∈ dictKeys (pages.foldl
          (fun ret page => page.foldl (s3_step reS protocol host fre dre) ret) acc) ↔
        k ∈ dictKeys acc ∨ ∃ obj ∈ pages.flatten, s3_key protocol host obj = k ∧
          optMatch reS fre (base_name (s3_key protocol host obj)) = true ∧
          optMatch reS dre (dir_name (s3_key protocol host obj)) = true := by
  intro pages
  induction pages with
  | nil => intro acc k; simp
  | cons page rest ih =>
    intro acc k
    rw [List.foldl_cons, ih, s3_fold_keys]
    simp only [List.flatten_cons, List.mem_append]
    constructor
    · rintro ((h1 | ⟨obj, hm, hcond⟩) | ⟨obj, hm, hcond⟩)
      · exact Or.inl h1
      · exact Or.inr ⟨obj, Or.inl hm, hcond⟩
      · exact Or.inr ⟨obj, Or.inr hm, hcond⟩
    · rintro (h1 | ⟨obj, hm | hm, hcond⟩)
      · exact Or.inl (Or.inl h1)
      · exact Or.inl (Or.inr ⟨obj, hm, hcond⟩)
      · exact Or.inr ⟨obj, hm, hcond⟩

theorem s3_pages_lookup (reS : String → String → Bool) (protocol host fre dre : Option String) :
    ∀ (pages : List (List S3Object)) (acc : AList GranuleEntry) (k : String) (e : GranuleEntry),
      dictLookup (pages.foldl
          (fun ret page => page.foldl (s3_step reS protocol host fre dre) ret) acc) k = some e →
        dictLookup acc k = some e ∨ ∃ obj ∈ pages.flatten, s3_key protocol host obj = k ∧
          optMatch reS fre (base_name (s3_key protocol host obj)) = true ∧
          optMatch reS dre (dir_name (s3_key protocol host obj)) = true ∧
          e = s3_entry obj := by
  intro pages
  induction pages with
  | nil => intro acc k e h; exact Or.inl h
  | cons page rest ih =>
    intro acc k e h
    rw [List.foldl_cons] at h
    rcases ih _ k e h with h1 | h1
    · rcases s3_fold_lookup reS protocol host fre dre page acc k e h1 with h2 | h2
      · exact Or.inl h2
      · rcases h2 with ⟨obj, hm, hcond⟩
        refine Or.inr ⟨obj, ?_, hcond⟩
        simp only [List.flatten_cons, List.mem_append]
        exact Or.inl hm
    · rcases h1 with ⟨obj, hm, hcond⟩
      refine Or.inr ⟨obj, ?_, hcond⟩
      simp only [List.flatten_cons, List.mem_append]
      exact Or.inr hm

/-- Helper: the name computed by `get_path` is the base name of the key. -/
theorem get_path_name (protocol host : Option String) (key : String) :
    (get_path protocol host key).name = base_name key := rfl

/-! ### Claims -/

/-- Claim C1: for every HTTP or SFTP discovery call with requested depth
`d` (any integer, including negative), the run equals the reference run
whose effective recursion depth below the starting location is exactly
`min |d| 3` (budget decremented by one per level, recursion exactly while
the budget is positive); at effective depth 0 the starting location's
immediate children are still listed and no recursion happens. -/
theorem claim_c1_depth_clamping (pT : String → Option Int) (reS : String → String → Bool)
    (fre dre : Option String) :
    (∀ (page : HttpTree) (url : String) (d : Int),
      discover_granules_http pT reS fre dre page url d
        = discover_http_at pT reS fre dre page url (min d.natAbs 3))
  ∧ (∀ (page : SftpTree) (path : String) (d : Int),
      discover_granules_sftp reS fre dre page path d
        = discover_sftp_at reS fre dre page path (min d.natAbs 3))
  ∧ (∀ (page : HttpTree) (url : String),
      discover_http_at pT reS fre dre page url 0 = http_level pT reS fre url page [])
  ∧ (∀ (page : SftpTree) (path : String),
      discover_sftp_at reS fre dre page path 0 = sftp_level reS fre dre path page []) := by
  refine ⟨fun page url d => discover_http_at_eq pT reS fre dre page url d,
    fun page path d => discover_sftp_at_eq reS fre dre page path d, ?_, fun page path => rfl⟩
  intro page url
  simp only [discover_http_at]
  cases http_level pT reS fre url page [] with
  | error e => rfl
  | ok m0 => rfl

/-- Claim C2: in HTTP discovery, a listed child is included in the result
dict of its listing iff it carries at least one identity marker (ETag or
Last-Modified non-absent) and the file regex is absent or matches its base
segment; a child carrying a marker whose segment fails the file regex
contributes nothing — it is neither added to the granule dict nor queued
as a directory (it is only logged and dropped). -/
theorem claim_c2_http_file_filter (pT : String → Option Int) (reS : String → String → Bool)
    (fre dre : Option String) (url : String) (page : HttpTree) (m : AList GranuleEntry)
    (h : http_level pT reS fre url page [] = Except.ok m) :
    (∀ p, p ∈ dictKeys m ↔ ∃ c ∈ http_children page,
      http_path url c.1 = p ∧ (c.2.1.etag.isSome = true ∨ c.2.1.lastModified.isSome = true) ∧
      optMatch reS fre (http_seg c.1) = true)
  ∧ (∀ (href : String) (hd : HeadResp) (sub rest : HttpTree) (acc : AList GranuleEntry),
      (hd.etag.isSome = true ∨ hd.lastModified.isSome = true) →
      optMatch reS fre (http_seg href) = false →
      http_level pT reS fre url (.cons href hd sub rest) acc
          = http_level pT reS fre url rest acc
        ∧ http_dirs reS dre url (.cons href hd sub rest) = http_dirs reS dre url rest) := by
  constructor
  · intro p
    rw [http_level_ok_keys pT reS fre url page [] m h p]
    simp [dictKeys]
  · intro href hd sub rest acc hmark hfail
    have hdir : (hd.etag.isNone && hd.lastModified.isNone) = false := by
      rcases hmark with h1 | h1
      · cases he : hd.etag
        · rw [he] at h1; simp at h1
        · simp [he]
      · cases he : hd.lastModified
        · rw [he] at h1; simp at h1
        · simp [he]
    constructor
    · simp only [http_level]
      rw [if_neg (by simp [hfail])]
    · simp only [http_dirs]
      rw [if_neg (by simp [hdir])]

/-- Witness for C2 at a concrete page: the child "a" with an ETag and no
file regex is included. -/
theorem claim_c2_witness :
    http_level (fun _ => none) (fun _ _ => false) none "http://h/r"
        (.cons "a" ⟨some "E", none⟩ .nil .nil) []
      = Except.ok [("http://h/r/a", { etag := some "E", lastModified := none, size := none })]
  ∧ ("http://h/r/a" ∈ dictKeys
      [("http://h/r/a", ({ etag := some "E", lastModified := none, size := none } : GranuleEntry))]) := by
  refine ⟨rfl, ?_⟩
  have h := (claim_c2_http_file_filter (fun _ => none) (fun _ _ => false) none none "http://h/r"
    (.cons "a" ⟨some "E", none⟩ .nil .nil)
    [("http://h/r/a", { etag := some "E", lastModified := none, size := none })] rfl).1
    "http://h/r/a"
  exact h.mpr ⟨("a", ⟨some "E", none⟩, .nil), List.mem_cons_self _ _, rfl, Or.inl rfl, rfl⟩

/-- Counterexample to C3 as stated: in SFTP discovery, with starting path
"/data" and a directory regex (pattern "P") whose matcher accepts only the
string "/data", the child directory "sub" — whose own full path
"/data/sub" does NOT match — is still recursed into: its file appears in
the result. -/
theorem claim_c3_counterexample :
    discover_granules_sftp (fun _ s => s == "/data") none (some "P")
        (.cons "sub" ⟨'d', 0, 0⟩ (.cons "f" ⟨'-', 5, 7⟩ .nil .nil) .nil) "/data" 1
      = [("sub/f", { etag := some "N/A", lastModified := some "5", size := some 7 })]
  ∧ (fun _ s => s == "/data") "P" "/data/sub" = false := ⟨rfl, rfl⟩

/-- Claim C3 amended: in HTTP discovery a directory is queued iff it
carries no identity marker and the directory regex is absent or matches
the directory's own full path; in SFTP discovery a directory entry is
queued iff its stat type is 'd' and the directory regex is absent or
matches the CURRENT (parent) directory path — the child's own path is not
consulted.  In both engines the recursion loop processes exactly the
queued directory list, in order. -/
theorem claim_c3_dir_filter (pT : String → Option Int) (reS : String → String → Bool)
    (fre dre : Option String) :
    (∀ (url : String) (page : HttpTree) (p : String) (t : HttpTree),
      (p, t) ∈ http_dirs reS dre url page ↔ ∃ c ∈ http_children page,
        c.2.1.etag = none ∧ c.2.1.lastModified = none ∧
        optMatch reS dre (http_path url c.1) = true ∧
        p = http_path url c.1 ++ "/" ∧ t = c.2.2)
  ∧ (∀ (path : String) (page : SftpTree) (nm : String) (t : SftpTree),
      (nm, t) ∈ sftp_dirs reS dre path page ↔ ∃ c ∈ sftp_children page,
        c.2.1.ftype = 'd' ∧ optMatch reS dre path = true ∧ nm = c.1 ∧ t = c.2.2)
  ∧ (∀ (page : HttpTree) (url : String) (n : Nat) (acc : AList GranuleEntry),
      http_recurse pT reS fre dre page url n acc
        = (http_dirs reS dre url page).foldlM
            (fun a pt => Except.map (fun r => dictUpdate a r)
              (discover_granules_http pT reS fre dre pt.2 pt.1 (Int.ofNat n))) acc)
  ∧ (∀ (page : SftpTree) (path : String) (n : Nat) (acc : AList GranuleEntry),
      sftp_recurse reS fre dre page path n acc
        = (sftp_dirs reS dre path page).foldl
            (fun a pt =>
              dictUpdate a (discover_granules_sftp reS fre dre pt.2 pt.1 (Int.ofNat n))) acc) :=
  ⟨fun url page => mem_http_dirs reS dre url page,
   fun path page => mem_sftp_dirs reS dre path page,
   http_recurse_dirs_fold pT reS fre dre,
   sftp_recurse_dirs_fold reS fre dre⟩

/-- Counterexample to C4 as stated: in SFTP discovery at depth 2, the two
distinct files /data/a/b/f (mtime 100) and /data/b/f (mtime 200) are
discovered by two different recursive branches under the SAME key "b/f"
(keys are rebased at the bare directory name), so the branch key sets are
not disjoint and the merged mapping keeps only the later branch's entry. -/
theorem claim_c4_counterexample :
    discover_granules_sftp (fun _ _ => true) none none
        (.cons "a" ⟨'d', 0, 0⟩
          (.cons "b" ⟨'d', 0, 0⟩ (.cons "f" ⟨'-', 100, 1⟩ .nil .nil) .nil)
          (.cons "b" ⟨'d', 0, 0⟩ (.cons "f" ⟨'-', 200, 2⟩ .nil .nil) .nil)) "/data" 2
      = [("b/f", { etag := some "N/A", lastModified := some "200", size := some 2 })]
  ∧ discover_granules_sftp (fun _ _ => true) none none
        (.cons "b" ⟨'d', 0, 0⟩ (.cons "f" ⟨'-', 100, 1⟩ .nil .nil) .nil) "a" 1
      = [("b/f", { etag := some "N/A", lastModified := some "100", size := some 1 })]
  ∧ discover_granules_sftp (fun _ _ => true) none none
        (.cons "f" ⟨'-', 200, 2⟩ .nil .nil) "b" 1
      = [("b/f", { etag := some "N/A", lastModified := some "200", size := some 2 })] :=
  ⟨rfl, rfl, rfl⟩

/-- Claim C4 amended: in HTTP discovery every discovered key extends the
stripped starting URL — keys encode full location paths — so two runs
whose stripped starting URLs are prefix-incomparable have disjoint key
sets; in SFTP discovery recursion rebases keys at the bare directory name,
so distinct branches may produce the same key and the merge overwrites the
earlier branch's entry (see the counterexample). -/
theorem claim_c4_keys_full_path (pT : String → Option Int) (reS : String → String → Bool)
    (fre dre : Option String) (page1 page2 : HttpTree) (u1 u2 : String) (d1 d2 : Int)
    (m1 m2 : AList GranuleEntry)
    (h1 : discover_granules_http pT reS fre dre page1 u1 d1 = Except.ok m1)
    (h2 : discover_granules_http pT reS fre dre page2 u2 d2 = Except.ok m2) :
    (∀ k ∈ dictKeys m1, listLeads (rstripChars '/' u1.data) k.data = true)
  ∧ (listLeads (rstripChars '/' u1.data) (rstripChars '/' u2.data) = false →
     listLeads (rstripChars '/' u2.data) (rstripChars '/' u1.data) = false →
     ∀ k, k ∈ dictKeys m1 → k ∉ dictKeys m2) := by
  constructor
  · exact discover_http_leads pT reS fre dre page1 u1 d1 m1 h1
  · intro hn1 hn2 k hk1 hk2
    have p1 := discover_http_leads pT reS fre dre page1 u1 d1 m1 h1 k hk1
    have p2 := discover_http_leads pT reS fre dre page2 u2 d2 m2 h2 k hk2
    rcases listLeads_comparable p1 p2 with h3 | h3
    · simp [h3] at hn1
    · simp [h3] at hn2

/-- Witness for C4 (amended) at two concrete single-file runs rooted at
incomparable URLs. -/
theorem claim_c4_witness :
    listLeads (rstripChars '/' "http://h/a".data) "http://h/a/f1".data = true
  ∧ ("http://h/a/f1" ∉ dictKeys
      [("http://h/b/f2", ({ etag := some "E", lastModified := none, size := none } : GranuleEntry))]) := by
  have hthm := claim_c4_keys_full_path (fun _ => none) (fun _ _ => false) none none
    (.cons "f1" ⟨some "E", none⟩ .nil .nil) (.cons "f2" ⟨some "E", none⟩ .nil .nil)
    "http://h/a" "http://h/b" 0 0
    [("http://h/a/f1", { etag := some "E", lastModified := none, size := none })]
    [("http://h/b/f2", { etag := some "E", lastModified := none, size := none })]
    rfl rfl
  exact ⟨hthm.1 "http://h/a/f1" (by decide),
    hthm.2 rfl rfl "http://h/a/f1" (by decide)⟩

/-- Claim C5: the duplicate-handling policy applied by
`check_granule_updates_db` is the configured (lowered) policy, except that
'replace' is demoted to 'skip' when the force-replace flag lowers to its
default 'false'; 'skip' and 'error' — and 'replace' with the flag set —
pass through unchanged. -/
theorem claim_c5_duplicates_policy (dh fr : Option String) :
    (pyLower (pyGet dh "skip") = "replace" → pyLower (pyGet fr "false") = "false" →
      duplicates_policy dh fr = "skip")
  ∧ (pyLower (pyGet dh "skip") = "replace" → pyLower (pyGet fr "false") ≠ "false" →
      duplicates_policy dh fr = "replace")
  ∧ (pyLower (pyGet dh "skip") = "skip" → duplicates_policy dh fr = "skip")
  ∧ (pyLower (pyGet dh "skip") = "error" → duplicates_policy dh fr = "error") := by
  refine ⟨?_, ?_, ?_, ?_⟩
  · intro h1 h2
    simp [duplicates_policy, h1, h2]
  · intro h1 h2
    simp [duplicates_policy, h1, h2]
  · intro h1
    have hne : ¬ pyLower (pyGet dh "skip") = "replace" := by rw [h1]; decide
    simp [duplicates_policy, h1, hne]
  · intro h1
    have hne : ¬ pyLower (pyGet dh "skip") = "replace" := by rw [h1]; decide
    simp [duplicates_policy, h1, hne]

/-- Witness for C5 at concrete configurations (the third case also
demonstrates case-insensitive lowering). -/
theorem claim_c5_witness :
    duplicates_policy (some "replace") none = "skip"
  ∧ duplicates_policy (some "replace") (some "true") = "replace"
  ∧ duplicates_policy (some "ERROR") (some "true") = "error" :=
  ⟨(claim_c5_duplicates_policy (some "replace") none).1 rfl rfl,
   (claim_c5_duplicates_policy (some "replace") (some "true")).2.1 rfl (by decide),
   (claim_c5_duplicates_policy (some "ERROR") (some "true")).2.2.2 rfl⟩

/-- Counterexample to C6 as stated: an unrouted discovered file is emitted
with empty checksum fields, but its bucket field is NOT empty — the
f-string renders the missing bucket value as "None", producing
"<stack>-None". -/
theorem claim_c6_counterexample :
    ((generate_cumulus_record (fun _ _ => false) (some "s") (some "p") (some "h") none none
        (build_mapping [{ regex := "z", bucket := some "buk", lzards := some true }])
        "p://h/a/f" { etag := some "E", lastModified := some "1", size := some 5 }).files.map
      (fun F => (F.bucket, F.checksum, F.checksumType)))
      = [("s-None", some "", "")]
  ∧ ("s-None" : String) ≠ "" := ⟨rfl, by decide⟩

/-- Claim C6 amended: the generator emits exactly one record per
discovered entry; for an entry whose base name matches no routing rule the
record's checksum and checksum-type fields are empty strings, but the
bucket field is the deployment namespace followed by "-None" (the
rendering of the missing bucket value), not the empty string. -/
theorem claim_c6_unrouted (reS : String → String → Bool)
    (stack protocol host cname ver : Option String) (files_list : List FileDict)
    (ret_dict : AList GranuleEntry) :
    (cumulus_output_generator reS stack protocol host cname ver files_list ret_dict).length
      = ret_dict.length
  ∧ ∀ kv ∈ ret_dict,
      (generate_cumulus_record reS stack protocol host cname ver (build_mapping files_list)
          kv.1 kv.2
        ∈ cumulus_output_generator reS stack protocol host cname ver files_list ret_dict)
      ∧ ((∀ fd ∈ files_list, reS fd.regex (base_name kv.1) = false) →
          (generate_cumulus_record reS stack protocol host cname ver (build_mapping files_list)
              kv.1 kv.2).files.map (fun F => (F.bucket, F.checksum, F.checksumType))
            = [(pyFmt stack ++ "-" ++ "None", some "", "")]) := by
  refine ⟨by simp [cumulus_output_generator], ?_⟩
  intro kv hkv
  constructor
  · simp only [cumulus_output_generator]
    exact List.mem_map_of_mem _ hkv
  · intro hno
    have hfind : (build_mapping files_list).find? (fun p => reS p.1 (base_name kv.1)) = none :=
      build_mapping_find_none reS files_list (base_name kv.1) hno
    simp [generate_cumulus_record, get_path_name, hfind, pyFmt]

/-- Witness for C6 (amended) at a concrete unrouted entry. -/
theorem claim_c6_witness :
    ((generate_cumulus_record (fun _ _ => false) (some "s") (some "p") (some "h") none none
        (build_mapping [{ regex := "z", bucket := some "buk", lzards := some true }])
        "p://h/a/f" { etag := some "E", lastModified := some "1", size := some 5 }).files.map
      (fun F => (F.bucket, F.checksum, F.checksumType)))
      = [(pyFmt (some "s") ++ "-" ++ "None", some "", "")] := by
  have hthm := (claim_c6_unrouted (fun _ _ => false) (some "s") (some "p") (some "h") none none
    [{ regex := "z", bucket := some "buk", lzards := some true }]
    [("p://h/a/f", { etag := some "E", lastModified := some "1", size := some 5 })]).2
    ("p://h/a/f", { etag := some "E", lastModified := some "1", size := some 5 })
    (List.mem_cons_self _ _)
  exact hthm.2 (by intro fd hfd; rfl)

/-- Counterexample to C7 as stated: with two rules sharing the pattern "p"
(buckets A then B), the first matching rule in declaration order carries
bucket A, yet the generated record's bucket comes from the LAST duplicate
(bucket B), because the routing mapping is keyed by the pattern string and
a repeated pattern overwrites the earlier rule's values. -/
theorem claim_c7_counterexample :
    ([{ regex := "p", bucket := some "A", lzards := some false },
      { regex := "p", bucket := some "B", lzards := some false }] : List FileDict).find?
        (fun fd => (fun pat (_ : String) => pat == "p") fd.regex (base_name "x/y"))
      = some { regex := "p", bucket := some "A", lzards := some false }
  ∧ ((generate_cumulus_record (fun pat _ => pat == "p") (some "s") (some "p") (some "h")
        none none
        (build_mapping [{ regex := "p", bucket := some "A", lzards := some false },
          { regex := "p", bucket := some "B", lzards := some false }]) "x/y"
        { etag := some "E", lastModified := some "1", size := some 1 }).files.map
      CumulusFile.bucket) = ["s-B"]
  ∧ ("s-B" : String) ≠ "s-A" := ⟨rfl, rfl, by decide⟩

/-- Claim C7 amended: when no two routing rules share a pattern string,
the first rule (in declaration order) whose pattern matches the base name
supplies the bucket and backup flag: the record's bucket is the deployment
namespace, a hyphen, and the rendered rule bucket; when the rule requests
backup the checksum is the entry's identity tag with checksum type "md5",
otherwise both checksum fields are empty.  (With duplicated pattern
strings the last duplicate's values win — see the counterexample.) -/
theorem claim_c7_routed (reS : String → String → Bool)
    (stack protocol host cname ver : Option String) (files_list : List FileDict)
    (key : String) (value : GranuleEntry) (fd0 : FileDict)
    (hnd : (files_list.map FileDict.regex).Nodup)
    (hfind : files_list.find? (fun fd => reS fd.regex (base_name key)) = some fd0) :
    (generate_cumulus_record reS stack protocol host cname ver (build_mapping files_list)
        key value).files.map (fun F => (F.bucket, F.checksum, F.checksumType))
      = [(pyFmt stack ++ "-" ++ pyFmt fd0.bucket,
          if fd0.lzards = some true then value.etag else some "",
          if fd0.lzards = some true then "md5" else "")] := by
  have hm : (build_mapping files_list).find? (fun p => reS p.1 (base_name key))
      = some (fd0.regex, { bucket := fd0.bucket, lzards := fd0.lzards }) := by
    rw [find_first_rule reS files_list (base_name key) hnd, hfind]
    rfl
  simp [generate_cumulus_record, get_path_name, hm]

/-- Witness for C7 (amended) at a concrete two-rule configuration with
distinct patterns, first match carrying the backup flag. -/
theorem claim_c7_witness :
    (generate_cumulus_record (fun pat s => pat == s) (some "s") (some "p") (some "h")
        none none
        (build_mapping [{ regex := "f", bucket := some "A", lzards := some true },
          { regex := "g", bucket := some "B", lzards := some false }]) "p://h/a/f"
        { etag := some "E", lastModified := some "1", size := some 5 }).files.map
      (fun F => (F.bucket, F.checksum, F.checksumType))
      = [(pyFmt (some "s") ++ "-" ++ pyFmt (some "A"),
          if (some true : Option Bool) = some true then some "E" else some "",
          if (some true : Option Bool) = some true then "md5" else "")] := by
  exact claim_c7_routed (fun pat s => pat == s) (some "s") (some "p") (some "h") none none
    [{ regex := "f", bucket := some "A", lzards := some true },
      { regex := "g", bucket := some "B", lzards := some false }] "p://h/a/f"
    { etag := some "E", lastModified := some "1", size := some 5 }
    { regex := "f", bucket := some "A", lzards := some true } (by decide) rfl

/-- Claim C8: S3 discovery treats every listed object as a file with no
recursion: an object key appears in the result iff both filters pass (the
file regex against the base name and the directory regex against the
computed parent path), and every stored entry carries the object's ETag
with surrounding quote characters stripped. -/
theorem claim_c8_s3 (reS : String → String → Bool) (protocol host fre dre : Option String)
    (pages : List (List S3Object)) :
    (∀ k, k ∈ dictKeys (discover_granules_s3 reS protocol host fre dre pages) ↔
      ∃ obj ∈ pages.flatten, s3_key protocol host obj = k ∧
        optMatch reS fre (base_name (s3_key protocol host obj)) = true ∧
        optMatch reS dre (dir_name (s3_key protocol host obj)) = true)
  ∧ (∀ k e, dictLookup (discover_granules_s3 reS protocol host fre dre pages) k = some e →
      ∃ obj ∈ pages.flatten, s3_key protocol host obj = k ∧
        optMatch reS fre (base_name (s3_key protocol host obj)) = true ∧
        optMatch reS dre (dir_name (s3_key protocol host obj)) = true ∧
        e = s3_entry obj) := by
  constructor
  · intro k
    simp only [discover_granules_s3]
    rw [s3_pages_keys reS protocol host fre dre pages [] k]
    simp [dictKeys]
  · intro k e h
    simp only [discover_granules_s3] at h
    rcases s3_pages_lookup reS protocol host fre dre pages [] k e h with h1 | h1
    · simp [dictLookup] at h1
    · exact h1

/-- Witness for C8 at a concrete one-object page (quoted ETag stripped). -/
theorem claim_c8_witness :
    ("s3://b/a/f" ∈ dictKeys (discover_granules_s3 (fun _ _ => true) (some "s3") (some "b")
        none none [[{ key := "a/f", etag := "\"E\"", lastModified := 10, size := 3 }]]))
  ∧ ∃ obj ∈ ([[{ key := "a/f", etag := "\"E\"", lastModified := 10, size := 3 }]] :
        List (List S3Object)).flatten,
      s3_key (some "s3") (some "b") obj = "s3://b/a/f" ∧
      optMatch (fun _ _ => true) none (base_name (s3_key (some "s3") (some "b") obj)) = true ∧
      optMatch (fun _ _ => true) none (dir_name (s3_key (some "s3") (some "b") obj)) = true ∧
      ({ etag := some "E", lastModified := some "10", size := some 3 } : GranuleEntry)
        = s3_entry obj := by
  constructor
  · exact ((claim_c8_s3 (fun _ _ => true) (some "s3") (some "b") none none
      [[{ key := "a/f", etag := "\"E\"", lastModified := 10, size := 3 }]]).1 "s3://b/a/f").mpr
      ⟨{ key := "a/f", etag := "\"E\"", lastModified := 10, size := 3 }, by simp, rfl, rfl, rfl⟩
  · exact (claim_c8_s3 (fun _ _ => true) (some "s3") (some "b") none none
      [[{ key := "a/f", etag := "\"E\"", lastModified := 10, size := 3 }]]).2 "s3://b/a/f"
      { etag := some "E", lastModified := some "10", size := some 3 } rfl

/-- Counterexample to C9 as stated: a Last-Modified string the timestamp
parser rejects is not treated as absent — the parse failure propagates and
the whole HTTP discovery call aborts, so the file (which has an ETag) is
not discovered at all. -/
theorem claim_c9_counterexample :
    discover_granules_http (fun _ => none) (fun _ _ => true) none none
        (.cons "f" ⟨some "E", some (.str "bad")⟩ .nil .nil) "http://h/r" 0
      = Except.error "bad" := rfl

/-- Claim C9 amended: a Last-Modified value that is absent or not a string
is treated as absent — the listing succeeds and files are still included
exactly according to their markers and the file regex; but a Last-Modified
STRING the parser rejects propagates as an error (see the
counterexample). -/
theorem claim_c9_nonstr_lm (pT : String → Option Int) (reS : String → String → Bool)
    (fre : Option String) (url : String) (page : HttpTree) (acc : AList GranuleEntry)
    (h : page_lm_nonstr page = true) :
    ∃ m, http_level pT reS fre url page acc = Except.ok m
      ∧ ∀ p, p ∈ dictKeys m ↔ p ∈ dictKeys acc ∨ ∃ c ∈ http_children page,
          http_path url c.1 = p ∧
          (c.2.1.etag.isSome = true ∨ c.2.1.lastModified.isSome = true) ∧
          optMatch reS fre (http_seg c.1) = true := by
  rcases http_level_nonstr_ok pT reS fre url page acc h with ⟨m, hm⟩
  exact ⟨m, hm, http_level_ok_keys pT reS fre url page acc m hm⟩

/-- Witness for C9 (amended) at a concrete page whose single child carries
an ETag and a non-string Last-Modified value. -/
theorem claim_c9_witness :
    ∃ m, http_level (fun _ => none) (fun _ _ => true) none "http://h/r"
        (.cons "f" ⟨some "E", some HeaderVal.nonStr⟩ .nil .nil) [] = Except.ok m
      ∧ ∀ p, p ∈ dictKeys m ↔ p ∈ dictKeys ([] : AList GranuleEntry) ∨
          ∃ c ∈ http_children (.cons "f" ⟨some "E", some HeaderVal.nonStr⟩ .nil .nil),
            http_path "http://h/r" c.1 = p ∧
            (c.2.1.etag.isSome = true ∨ c.2.1.lastModified.isSome = true) ∧
            optMatch (fun _ _ => true) none (http_seg c.1) = true :=
  claim_c9_nonstr_lm (fun _ => none) (fun _ _ => true) none "http://h/r"
    (.cons "f" ⟨some "E", some HeaderVal.nonStr⟩ .nil .nil) [] rfl

/-- Claim C10: when the environment variable `no_return` lowers to "true"
at the end of `discover()`, the returned value is `{'granules': []}`
regardless of the generated output, while the metadata-store update
performed earlier in the call is kept. -/
theorem claim_c10_no_return {Db β : Type} (applyUpdates : Db → AList GranuleEntry → Db)
    (gen : AList GranuleEntry → List β) (db : Db) (granule_dict : AList GranuleEntry)
    (no_return : Option String) (h : pyLower (pyGet no_return "false") = "true") :
    (discover_branch applyUpdates gen db granule_dict no_return).2.granules = []
  ∧ (discover_branch applyUpdates gen db granule_dict no_return).1
      = applyUpdates db granule_dict := by
  constructor
  · simp [discover_branch, h]
  · rfl

/-- Witness for C10 with the flag spelled "TRUE" (case-insensitive) and a
store update that is observably kept. -/
theorem claim_c10_witness :
    (discover_branch (fun (n : Nat) (_ : AList GranuleEntry) => n + 1) (fun _ => [(7 : Nat)])
        0 [] (some "TRUE")).2.granules = []
  ∧ (discover_branch (fun (n : Nat) (_ : AList GranuleEntry) => n + 1) (fun _ => [(7 : Nat)])
        0 [] (some "TRUE")).1 = 1 :=
  ⟨(claim_c10_no_return (fun n _ => n + 1) (fun _ => [(7 : Nat)]) 0 [] (some "TRUE") rfl).1,
   (claim_c10_no_return (fun n _ => n + 1) (fun _ => [(7 : Nat)]) 0 [] (some "TRUE") rfl).2⟩

end DiscoverGranules
